import Mathlib

/-!
Verification of the flux-style denoising sampler (`sampling.py`).

Tensors are modelled as total functions from (unbounded) natural-number
indices to entries; a rearrangement such as einops `rearrange` becomes the
corresponding index transformation.  Floating-point scalars are modelled as
real numbers, except where a claim is purely about data movement, in which
case the entry type is an arbitrary type `α`.  The denoising loops are
modelled generically over a commutative ring of scalars acting on a module
of latents, with call counters added so that "never invokes the
unconditional forward pass" is expressible (the spec itself suggests
call-count instrumentation).
-/

/-! ## Packing / unpacking codec

`pack` embeds the einops rearrangement performed by `prepare`
(sampling.py:80): `"b c (h ph) (w pw) -> b (h w) (c ph pw)"` with
`ph = pw = 2`, on a latent whose patch grid has `w2` columns.
A tensor of shape (B, C, H, W) becomes the index function
`x b c i j`; the packed sequence is indexed as `y b s f` with
`s = hh * w2 + ww` (row-major over 2x2 patches) and
`f = c * 4 + ph * 2 + pw`. -/

def pack {α : Type} (w2 : ℕ) (x : ℕ → ℕ → ℕ → ℕ → α) : ℕ → ℕ → ℕ → α :=
  fun b s f => x b (f / 4) (2 * (s / w2) + (f % 4) / 2) (2 * (s % w2) + f % 2)

/-- Function `unpack` embeds sampling.py:259-267: einops
`"b (h w) (c ph pw) -> b c (h ph) (w pw)"` with `h = ceil(height/16)`,
`w = ceil(width/16)`, `ph = pw = 2`.  `height` enters einops only through
its shape check, not the index arithmetic, so it is carried but unused. -/
def unpack {α : Type} (height width : ℕ) (y : ℕ → ℕ → ℕ → α) : ℕ → ℕ → ℕ → ℕ → α :=
  fun b c i j => y b ((i / 2) * ((width + 15) / 16) + j / 2) (c * 4 + (i % 2) * 2 + j % 2)

/-! ## Positional id generator -/

/-- The (h2, w2, 3) grid built at sampling.py:84-86: a zero tensor whose
channel 1 receives the broadcast row index and channel 2 the broadcast
column index. -/
def img_ids_grid (i j ch : ℕ) : ℕ :=
  (if ch = 1 then i else 0) + (if ch = 2 then j else 0)

/-- The image position ids after `repeat "h w c -> b (h w) c"`
(sampling.py:87): row-major flattening of the grid, replicated across the
batch (the batch index is therefore ignored). -/
def img_ids (h2 w2 : ℕ) : ℕ → ℕ → ℕ → ℕ :=
  fun _b s ch => img_ids_grid (s / w2) (s % w2) ch

/-! ## Forward-pass orchestrator: validation and invocation order

`model_forward` (sampling.py:12-52) is abstracted to the sequence of
network sub-components it invokes, together with the error it raises, if
any.  The inputs that decide control flow are the ranks of `img` and
`txt`, the model's `guidance_embed` flag, and whether `guidance` is None;
`nDouble`/`nSingle` are the lengths of the block lists. -/

inductive SubComponent where
  | img_in | time_in | guidance_in | vector_in | txt_in | pe_embedder
  | double_block | single_block | final_layer
  deriving DecidableEq, Repr

/-- Message of the ValueError at sampling.py:24. -/
def rank_error_msg : String := "Input img and txt tensors must have 3 dimensions."

/-- Message of the ValueError at sampling.py:30. -/
def guidance_error_msg : String := "Didn\x27t get guidance strength for guidance distilled model."

/-- Trace semantics of `model_forward`: the list of sub-components invoked
before returning or raising, paired with the raised error message (if any).
Mirrors the source order: the rank check (line 23) precedes everything;
`img_in` (26) and `time_in` (27) run before the guidance check (28-30);
`guidance_in` (31), `vector_in` (32), `txt_in` (33), `pe_embedder` (36),
the dual-stream blocks (39-43), the single-stream blocks (47-48) and
`final_layer` (51) follow. -/
def model_forward_trace (imgNdim txtNdim : ℕ) (guidance_embed guidance_is_none : Bool)
    (nDouble nSingle : ℕ) : List SubComponent × Option String :=
  if imgNdim ≠ 3 ∨ txtNdim ≠ 3 then
    ([], some rank_error_msg)
  else if guidance_embed ∧ guidance_is_none then
    ([SubComponent.img_in, SubComponent.time_in], some guidance_error_msg)
  else
    ([SubComponent.img_in, SubComponent.time_in]
      ++ (if guidance_embed then [SubComponent.guidance_in] else [])
      ++ [SubComponent.vector_in, SubComponent.txt_in, SubComponent.pe_embedder]
      ++ List.replicate nDouble SubComponent.double_block
      ++ List.replicate nSingle SubComponent.single_block
      ++ [SubComponent.final_layer], none)

/-- The C7 claim as stated: a validation error occurs iff the rank
condition or the missing-guidance condition holds; every error is raised
before any network sub-component is invoked; and the missing-guidance
error carries the message "guidance strength required". -/
def model_forward_validation_claim : Prop :=
  ∀ (imgNdim txtNdim : ℕ) (ge gn : Bool) (nd ns : ℕ),
    ((model_forward_trace imgNdim txtNdim ge gn nd ns).2.isSome ↔
      (imgNdim ≠ 3 ∨ txtNdim ≠ 3 ∨ (ge = true ∧ gn = true))) ∧
    ((model_forward_trace imgNdim txtNdim ge gn nd ns).2.isSome →
      (model_forward_trace imgNdim txtNdim ge gn nd ns).1 = []) ∧
    (imgNdim = 3 → txtNdim = 3 → ge = true → gn = true →
      (model_forward_trace imgNdim txtNdim ge gn nd ns).2 =
        some "guidance strength required")

/-! ## Dual-stream blocks with auxiliary (ControlNet) residuals

The loop at sampling.py:39-43 with `block_controlnet_hidden_states`
supplied: each block maps the (img, txt) pair to a new pair; after block
number `idx` the residual at position `idx % 2` is added to the image
stream only.  `List.getD` models Python indexing at in-range indices
(every index used by the claims below is in range). -/

def run_double_blocks {V : Type} [AddCommGroup V] :
    List (V → V → V × V) → List V → ℕ → V → V → V × V
  | [], _, _, img, txt => (img, txt)
  | b :: bs, res, idx, img, txt =>
    let p := b img txt
    run_double_blocks bs res (idx + 1) (p.1 + res.getD (idx % 2) 0) p.2

/-- Modelled from the spec: the same loop but with the residual "indexed by
`block_index mod len(residual_set)`", as §4.4 of the spec words it.  Kept
separate for comparison with `run_double_blocks`, which follows the
source. -/
def run_double_blocks_spec {V : Type} [AddCommGroup V] :
    List (V → V → V × V) → List V → ℕ → V → V → V × V
  | [], _, _, img, txt => (img, txt)
  | b :: bs, res, idx, img, txt =>
    let p := b img txt
    run_double_blocks_spec bs res (idx + 1) (p.1 + res.getD (idx % res.length) 0) p.2

/-! ## Schedule generator

Scalars are modelled as real numbers.  `time_shift` is evaluated by torch
elementwise on a float tensor; at `t = 0` the subterm `1 / t` is IEEE
`+inf`, the denominator is `+inf`, and the quotient is exactly `0.0`.
The real-number embedding encodes that boundary behaviour as an explicit
branch. -/

/-- sampling.py:107-108, `exp(mu) / (exp(mu) + (1/t - 1) ** sigma)`.
The `t = 0` branch records the IEEE limit described above. -/
noncomputable def time_shift (mu sigma t : ℝ) : ℝ :=
  if t = 0 then 0 else Real.exp mu / (Real.exp mu + (1 / t - 1) ^ sigma)

/-- sampling.py:111-116: the line through (x1, y1) and (x2, y2). -/
noncomputable def get_lin_function (x1 y1 x2 y2 : ℝ) : ℝ → ℝ :=
  fun x => ((y2 - y1) / (x2 - x1)) * x + (y1 - ((y2 - y1) / (x2 - x1)) * x1)

/-- Model of `torch.linspace a b steps`: `steps` evenly spaced points from `a` to
`b` inclusive. -/
noncomputable def linspace (a b : ℝ) (steps : ℕ) : List ℝ :=
  (List.range steps).map (fun i : ℕ => a + (b - a) * i / ((steps : ℝ) - 1))

/-- sampling.py:119-135.  `num_steps + 1` points from 1 to 0; when `shift`
is set, warp them by `time_shift` with `mu` obtained from the linear
estimate at `image_seq_len` and `sigma = 1.0`. -/
noncomputable def get_schedule (num_steps : ℕ) (image_seq_len : ℝ)
    (base_shift max_shift : ℝ) (shift : Bool) : List ℝ :=
  let timesteps := linspace 1 0 (num_steps + 1)
  if shift then
    (timesteps.map (time_shift (get_lin_function 256 base_shift 4096 max_shift image_seq_len) 1))
  else
    timesteps

/-! ## Denoising integrator

The model is abstracted to its two prediction functions: `pos t img` is
`model_forward` on the conditional inputs at timestep `t`, `neg t img` on
the negative inputs (all non-varying tensor arguments are captured inside
the closures).  Scalars form a commutative ring `R` acting on the latent
module `V`; the loop is written over the list of adjacent schedule pairs
`zip(timesteps[:-1], timesteps[1:])`.  Following the spec's own testing
advice, the loop carries call counters for the conditional and
unconditional forward passes. -/

/-- The per-step prediction of `denoise` (sampling.py:160-180): the
conditional prediction, blended with the unconditional one by
`pred = neg_pred + true_gs * (pred - neg_pred)` once `i` has reached
`timestep_to_start_cfg`. -/
def cfg_pred {R V : Type} [CommRing R] [AddCommGroup V] [Module R V]
    (pos neg : R → V → V) (true_gs : R) (timestep_to_start_cfg i : ℕ)
    (t_curr : R) (img : V) : V :=
  let pred := pos t_curr img
  if timestep_to_start_cfg ≤ i then
    let neg_pred := neg t_curr img
    neg_pred + true_gs • (pred - neg_pred)
  else
    pred

/-- The loop of `denoise` (sampling.py:155-183) over the remaining
adjacent pairs, instrumented: the result is the final latent together
with the number of conditional and of unconditional `model_forward`
calls.  Each iteration performs the Euler update
`img = img + (t_prev - t_curr) * pred`. -/
def denoise_loop {R V : Type} [CommRing R] [AddCommGroup V] [Module R V]
    (pos neg : R → V → V) (true_gs : R) (timestep_to_start_cfg : ℕ) :
    ℕ → V → List (R × R) → V × ℕ × ℕ
  | _, img, [] => (img, 0, 0)
  | i, img, (t_curr, t_prev) :: rest =>
    let pred := cfg_pred pos neg true_gs timestep_to_start_cfg i t_curr img
    let r := denoise_loop pos neg true_gs timestep_to_start_cfg (i + 1)
      (img + (t_prev - t_curr) • pred) rest
    (r.1, r.2.1 + 1, r.2.2 + (if timestep_to_start_cfg ≤ i then 1 else 0))

/-- Model of `zip(timesteps[:-1], timesteps[1:])`: the adjacent pairs of the
schedule. -/
def zip_pairs {R : Type} (timesteps : List R) : List (R × R) :=
  timesteps.dropLast.zip timesteps.tail

/-- Function `denoise` (sampling.py:138-183): run the loop from `i = 0` on the
initial latent and return the final latent. -/
def denoise {R V : Type} [CommRing R] [AddCommGroup V] [Module R V]
    (pos neg : R → V → V) (img : V) (timesteps : List R)
    (true_gs : R) (timestep_to_start_cfg : ℕ) : V :=
  (denoise_loop pos neg true_gs timestep_to_start_cfg 0 img (zip_pairs timesteps)).1

/-- Modelled from the spec: "a loop that omits the CFG blend
`pred = neg_pred + true_gs * (pred - neg_pred)` entirely" — the same
Euler iteration using the conditional prediction only.  Kept separate for
comparison with `denoise`, which follows the source. -/
def denoise_no_cfg_loop {R V : Type} [CommRing R] [AddCommGroup V] [Module R V]
    (pos : R → V → V) : V → List (R × R) → V
  | img, [] => img
  | img, (t_curr, t_prev) :: rest =>
    denoise_no_cfg_loop pos (img + (t_prev - t_curr) • pos t_curr img) rest

/-- Modelled from the spec: `denoise` without the CFG branch. -/
def denoise_no_cfg {R V : Type} [CommRing R] [AddCommGroup V] [Module R V]
    (pos : R → V → V) (img : V) (timesteps : List R) : V :=
  denoise_no_cfg_loop pos img (zip_pairs timesteps)

/-- The loop of `denoise_controlnet` (sampling.py:206-257), instrumented
with the number of `model_forward` calls and of controlnet calls.  The
controlnet is abstracted to `cnet_pos`/`cnet_neg` (its residual lists on
the conditional and negative inputs) and the model to `mpos`/`mneg`,
which additionally receive the residual list scaled by `controlnet_gs`. -/
def denoise_controlnet_loop {R V : Type} [CommRing R] [AddCommGroup V] [Module R V]
    (cnet_pos cnet_neg : R → V → List V) (mpos mneg : R → V → List V → V)
    (true_gs controlnet_gs : R) (timestep_to_start_cfg : ℕ) :
    ℕ → V → List (R × R) → V × ℕ × ℕ
  | _, img, [] => (img, 0, 0)
  | i, img, (t_curr, t_prev) :: rest =>
    let block_res := cnet_pos t_curr img
    let pred := mpos t_curr img (block_res.map (fun r => controlnet_gs • r))
    if timestep_to_start_cfg ≤ i then
      let neg_block_res := cnet_neg t_curr img
      let neg_pred := mneg t_curr img (neg_block_res.map (fun r => controlnet_gs • r))
      let blended := neg_pred + true_gs • (pred - neg_pred)
      let r := denoise_controlnet_loop cnet_pos cnet_neg mpos mneg true_gs controlnet_gs
        timestep_to_start_cfg (i + 1) (img + (t_prev - t_curr) • blended) rest
      (r.1, r.2.1 + 2, r.2.2 + 2)
    else
      let r := denoise_controlnet_loop cnet_pos cnet_neg mpos mneg true_gs controlnet_gs
        timestep_to_start_cfg (i + 1) (img + (t_prev - t_curr) • pred) rest
      (r.1, r.2.1 + 1, r.2.2 + 1)

/-- Function `denoise_controlnet` (sampling.py:185-257): run the loop from `i = 0`
and return the final latent. -/
def denoise_controlnet {R V : Type} [CommRing R] [AddCommGroup V] [Module R V]
    (cnet_pos cnet_neg : R → V → List V) (mpos mneg : R → V → List V → V)
    (img : V) (timesteps : List R) (true_gs controlnet_gs : R)
    (timestep_to_start_cfg : ℕ) : V :=
  (denoise_controlnet_loop cnet_pos cnet_neg mpos mneg true_gs controlnet_gs
    timestep_to_start_cfg 0 img (zip_pairs timesteps)).1

/-! ## Schedule lemmas -/

/-- The list `linspace 1 0 (n+1)` in closed form. -/
theorem linspace_one_zero (n : ℕ) :
    linspace 1 0 (n + 1) = (List.range (n + 1)).map (fun i : ℕ => 1 - (i : ℝ) / n) := by
  unfold linspace
  congr 1
  funext i
  have h : ((n + 1 : ℕ) : ℝ) - 1 = (n : ℝ) := by push_cast; ring
  rw [h]
  ring

theorem get_schedule_false_eq (n : ℕ) (L bs ms : ℝ) :
    get_schedule n L bs ms false = linspace 1 0 (n + 1) := rfl

theorem get_schedule_true_eq (n : ℕ) (L bs ms : ℝ) :
    get_schedule n L bs ms true =
      (List.range (n + 1)).map
        (fun i : ℕ => time_shift (get_lin_function 256 bs 4096 ms L) 1 (1 - (i : ℝ) / n)) := by
  unfold get_schedule
  rw [if_pos rfl, linspace_one_zero, List.map_map]
  rfl

theorem time_shift_zero (mu sigma : ℝ) : time_shift mu sigma 0 = 0 := by
  simp [time_shift]

theorem time_shift_one (mu : ℝ) : time_shift mu 1 1 = 1 := by
  unfold time_shift
  rw [if_neg one_ne_zero]
  norm_num

theorem time_shift_pos (mu t : ℝ) (h0 : 0 < t) (h1 : t ≤ 1) : 0 < time_shift mu 1 t := by
  unfold time_shift
  rw [if_neg (ne_of_gt h0), Real.rpow_one]
  apply div_pos (Real.exp_pos mu)
  have hle : (1 : ℝ) ≤ 1 / t := (one_le_div h0).mpr h1
  linarith [Real.exp_pos mu]

theorem time_shift_strict_mono (mu t1 t2 : ℝ) (h0 : 0 < t2) (h12 : t2 < t1) (h1 : t1 ≤ 1) :
    time_shift mu 1 t2 < time_shift mu 1 t1 := by
  have h0' : 0 < t1 := lt_trans h0 h12
  unfold time_shift
  rw [if_neg (ne_of_gt h0), if_neg (ne_of_gt h0'), Real.rpow_one, Real.rpow_one]
  have hd1 : 0 < Real.exp mu + (1 / t1 - 1) := by
    have hle : (1 : ℝ) ≤ 1 / t1 := (one_le_div h0').mpr h1
    linarith [Real.exp_pos mu]
  have hlt : 1 / t1 < 1 / t2 := one_div_lt_one_div_of_lt h0 h12
  exact div_lt_div_of_pos_left (Real.exp_pos mu) hd1 (by linarith)

theorem time_shift_lt (mu t1 t2 : ℝ) (h0 : 0 ≤ t2) (h12 : t2 < t1) (h1 : t1 ≤ 1) :
    time_shift mu 1 t2 < time_shift mu 1 t1 := by
  rcases eq_or_lt_of_le h0 with h | h
  · rw [← h, time_shift_zero]
    exact time_shift_pos mu t1 (by linarith) h1
  · exact time_shift_strict_mono mu t1 t2 h h12 h1

/-- C5: for every `num_steps n ≥ 1` and every `image_seq_len L`,
`get_schedule(n, L, shift=False)` returns exactly `n + 1` values that are
strictly decreasing, with first element 1.0 and last element 0.0, and the
result does not depend on `L`. -/
theorem get_schedule_noshift_spec (n : ℕ) (L L2 bs ms : ℝ) (hn : 1 ≤ n) :
    (get_schedule n L bs ms false).length = n + 1 ∧
    (get_schedule n L bs ms false).Pairwise (· > ·) ∧
    (get_schedule n L bs ms false).head? = some 1 ∧
    (get_schedule n L bs ms false).getLast? = some 0 ∧
    get_schedule n L bs ms false = get_schedule n L2 bs ms false := by
  have hn0 : (0 : ℝ) < (n : ℝ) := by exact_mod_cast hn
  rw [get_schedule_false_eq, get_schedule_false_eq, linspace_one_zero]
  refine ⟨by simp, ?_, ?_, ?_, rfl⟩
  · rw [List.pairwise_iff_getElem]
    intro i j hi hj hij
    simp only [List.length_map, List.length_range] at hi hj
    simp only [List.getElem_map, List.getElem_range]
    have hij' : (i : ℝ) < (j : ℝ) := by exact_mod_cast hij
    have hd : (i : ℝ) / n < (j : ℝ) / n := (div_lt_div_iff_of_pos_right hn0).mpr hij'
    linarith
  · rw [List.range_succ_eq_map]
    simp
  · rw [List.range_succ, List.map_append, List.map_singleton, List.getLast?_concat]
    rw [div_self (ne_of_gt hn0)]
    norm_num

/-- C5 witness: the no-shift schedule properties at n = 1, L = 7, L2 = 3. -/
theorem get_schedule_noshift_spec_witness :
    (1 : ℕ) ≤ 1 ∧
    ((get_schedule 1 7 0.5 1.15 false).length = 1 + 1 ∧
     (get_schedule 1 7 0.5 1.15 false).Pairwise (· > ·) ∧
     (get_schedule 1 7 0.5 1.15 false).head? = some 1 ∧
     (get_schedule 1 7 0.5 1.15 false).getLast? = some 0 ∧
     get_schedule 1 7 0.5 1.15 false = get_schedule 1 3 0.5 1.15 false) :=
  ⟨le_refl 1, get_schedule_noshift_spec 1 7 3 0.5 1.15 (le_refl 1)⟩

theorem get_schedule_true_length (n : ℕ) (L bs ms : ℝ) :
    (get_schedule n L bs ms true).length = n + 1 := by
  rw [get_schedule_true_eq]
  simp

theorem get_schedule_true_pairwise (n : ℕ) (L bs ms : ℝ) (hn : 1 ≤ n) :
    (get_schedule n L bs ms true).Pairwise (· > ·) := by
  have hn0 : (0 : ℝ) < (n : ℝ) := by exact_mod_cast hn
  rw [get_schedule_true_eq, List.pairwise_iff_getElem]
  intro i j hi hj hij
  simp only [List.length_map, List.length_range] at hi hj
  simp only [List.getElem_map, List.getElem_range]
  apply time_shift_lt
  · have hjn : (j : ℝ) ≤ (n : ℝ) := by exact_mod_cast Nat.lt_succ_iff.mp hj
    have hd : (j : ℝ) / n ≤ 1 := (div_le_one hn0).mpr hjn
    linarith
  · have hij' : (i : ℝ) < (j : ℝ) := by exact_mod_cast hij
    have hd := (div_lt_div_iff_of_pos_right hn0).mpr hij'
    linarith
  · have hd : (0 : ℝ) ≤ (i : ℝ) / n := div_nonneg (Nat.cast_nonneg i) (le_of_lt hn0)
    linarith

theorem get_schedule_true_head (n : ℕ) (L bs ms : ℝ) :
    (get_schedule n L bs ms true).head? = some 1 := by
  rw [get_schedule_true_eq, List.range_succ_eq_map]
  simp [time_shift_one]

theorem get_schedule_true_getLast (n : ℕ) (L bs ms : ℝ) (hn : 1 ≤ n) :
    (get_schedule n L bs ms true).getLast? = some 0 := by
  have hn0 : (0 : ℝ) < (n : ℝ) := by exact_mod_cast hn
  rw [get_schedule_true_eq, List.range_succ, List.map_append, List.map_singleton,
    List.getLast?_concat]
  rw [div_self (ne_of_gt hn0)]
  norm_num [time_shift_zero]

/-- C6: for every `num_steps n ≥ 1` and every `image_seq_len L`,
`get_schedule(n, L, shift=True)` returns a list of length `n + 1` that is
strictly decreasing with first element 1.0; its last element is 0 (which
satisfies "non-finite or 0"); the warp preserves monotonic decrease. -/
theorem get_schedule_shift_spec (n : ℕ) (L bs ms : ℝ) (hn : 1 ≤ n) :
    (get_schedule n L bs ms true).length = n + 1 ∧
    (get_schedule n L bs ms true).Pairwise (· > ·) ∧
    (get_schedule n L bs ms true).head? = some 1 ∧
    (get_schedule n L bs ms true).getLast? = some 0 :=
  ⟨get_schedule_true_length n L bs ms, get_schedule_true_pairwise n L bs ms hn,
    get_schedule_true_head n L bs ms, get_schedule_true_getLast n L bs ms hn⟩

/-- C6 witness: the shifted schedule properties at n = 2, L = 1024. -/
theorem get_schedule_shift_spec_witness :
    (1 : ℕ) ≤ 2 ∧
    ((get_schedule 2 1024 0.5 1.15 true).length = 2 + 1 ∧
     (get_schedule 2 1024 0.5 1.15 true).Pairwise (· > ·) ∧
     (get_schedule 2 1024 0.5 1.15 true).head? = some 1 ∧
     (get_schedule 2 1024 0.5 1.15 true).getLast? = some 0) :=
  ⟨by norm_num, get_schedule_shift_spec 2 1024 0.5 1.15 (by norm_num)⟩

/-- C9: the warp evaluated at the terminal point `t = 0` yields exactly 0
(the embedding's `t = 0` branch records the IEEE evaluation
`exp(mu) / (exp(mu) + inf) = 0.0`), so the last element of the shifted
schedule is exactly 0 — a finite real number, resolving the boundary
question in favor of a finite zero. -/
theorem get_schedule_shift_terminal_zero (n : ℕ) (L bs ms mu : ℝ) (hn : 1 ≤ n) :
    time_shift mu 1 0 = 0 ∧ (get_schedule n L bs ms true).getLast? = some 0 :=
  ⟨time_shift_zero mu 1, get_schedule_true_getLast n L bs ms hn⟩

/-- C9 witness: the terminal zero at n = 1, L = 256, mu = 2. -/
theorem get_schedule_shift_terminal_zero_witness :
    (1 : ℕ) ≤ 1 ∧
    (time_shift 2 1 0 = 0 ∧ (get_schedule 1 256 0.5 1.15 true).getLast? = some 0) :=
  ⟨le_refl 1, get_schedule_shift_terminal_zero 1 256 0.5 1.15 2 (le_refl 1)⟩

/-! ## Round trip and positional id theorems -/

/-- C2: for a latent of shape (B, C, H, W) with `W = 2 * ceil(width/16)`
(so that `pack` groups its rows into `ceil(width/16)` patches, matching
what `unpack` assumes), unpacking the packed sequence with the original
width reproduces every entry whose column index is in range; the height
plays no role in the index arithmetic, so any `height` and any row index
work. -/
theorem unpack_pack_roundtrip {α : Type} (x : ℕ → ℕ → ℕ → ℕ → α)
    (height width b c i j : ℕ) (hj : j < 2 * ((width + 15) / 16)) :
    unpack height width (pack ((width + 15) / 16) x) b c i j = x b c i j := by
  have hw2 : 0 < (width + 15) / 16 := by omega
  show x b ((c * 4 + (i % 2) * 2 + j % 2) / 4)
      (2 * (((i / 2) * ((width + 15) / 16) + j / 2) / ((width + 15) / 16))
        + ((c * 4 + (i % 2) * 2 + j % 2) % 4) / 2)
      (2 * (((i / 2) * ((width + 15) / 16) + j / 2) % ((width + 15) / 16))
        + (c * 4 + (i % 2) * 2 + j % 2) % 2) = x b c i j
  have hjd : j / 2 < (width + 15) / 16 := by omega
  have hs_div : ((i / 2) * ((width + 15) / 16) + j / 2) / ((width + 15) / 16) = i / 2 := by
    rw [mul_comm, Nat.mul_add_div hw2, Nat.div_eq_of_lt hjd, Nat.add_zero]
  have hs_mod : ((i / 2) * ((width + 15) / 16) + j / 2) % ((width + 15) / 16) = j / 2 := by
    rw [mul_comm, Nat.mul_add_mod, Nat.mod_eq_of_lt hjd]
  rw [hs_div, hs_mod]
  have h1 : (c * 4 + (i % 2) * 2 + j % 2) / 4 = c := by omega
  have h2 : 2 * (i / 2) + ((c * 4 + (i % 2) * 2 + j % 2) % 4) / 2 = i := by omega
  have h3 : 2 * (j / 2) + (c * 4 + (i % 2) * 2 + j % 2) % 2 = j := by omega
  rw [h1, h2, h3]

/-- C2 witness: round trip at width 3 (patch grid of one column) on a
concrete integer tensor. -/
theorem unpack_pack_roundtrip_witness :
    1 < 2 * ((3 + 15) / 16) ∧
    unpack 5 3 (pack ((3 + 15) / 16) (fun b c i j => b + 10 * c + 100 * i + 1000 * j))
      0 2 3 1 = (fun b c i j => b + 10 * c + 100 * i + 1000 * j) 0 2 3 1 :=
  ⟨by norm_num,
    unpack_pack_roundtrip (fun b c i j => b + 10 * c + 100 * i + 1000 * j)
      5 3 0 2 3 1 (by norm_num)⟩

/-- C8: the image position ids form a tensor whose entry at flat token
index `i * w2 + j` (row `i`, column `j < w2`) has channel 0 equal to 0,
channel 1 equal to the row index and channel 2 equal to the column index,
identically for every batch index; in particular for `h = 2, w = 3` the
token at flat index 4 has ids (0, 1, 1). -/
theorem img_ids_spec (h2 w2 b i j : ℕ) (hj : j < w2) :
    (img_ids h2 w2 b (i * w2 + j) 0 = 0 ∧
     img_ids h2 w2 b (i * w2 + j) 1 = i ∧
     img_ids h2 w2 b (i * w2 + j) 2 = j) ∧
    (∀ b2 s ch, img_ids h2 w2 b2 s ch = img_ids h2 w2 b s ch) ∧
    (img_ids 2 3 0 4 0 = 0 ∧ img_ids 2 3 0 4 1 = 1 ∧ img_ids 2 3 0 4 2 = 1) := by
  have hw2 : 0 < w2 := by omega
  have hdiv : (i * w2 + j) / w2 = i := by
    rw [mul_comm, Nat.mul_add_div hw2, Nat.div_eq_of_lt hj, Nat.add_zero]
  have hmod : (i * w2 + j) % w2 = j := by
    rw [mul_comm, Nat.mul_add_mod, Nat.mod_eq_of_lt hj]
  refine ⟨⟨?_, ?_, ?_⟩, fun b2 s ch => rfl, by decide⟩ <;>
    simp [img_ids, img_ids_grid, hdiv, hmod]

/-- C8 witness: the spec's concrete instance h = 2, w = 3, b = 1,
token 4 = (row 1, col 1). -/
theorem img_ids_spec_witness :
    1 < 3 ∧
    ((img_ids 2 3 0 (1 * 3 + 1) 0 = 0 ∧
      img_ids 2 3 0 (1 * 3 + 1) 1 = 1 ∧
      img_ids 2 3 0 (1 * 3 + 1) 2 = 1) ∧
     (∀ b2 s ch, img_ids 2 3 b2 s ch = img_ids 2 3 0 s ch) ∧
     (img_ids 2 3 0 4 0 = 0 ∧ img_ids 2 3 0 4 1 = 1 ∧ img_ids 2 3 0 4 2 = 1)) :=
  ⟨by norm_num, img_ids_spec 2 3 0 1 1 (by norm_num)⟩

/-! ## C4: ControlNet residual indexing -/

/-- C4 counterexample: with three identity dual-stream blocks and the
residual set [0, 0, 5], the source loop adds the residual at
`block_index % 2` (so block 2 adds position 0, value 0), while the spec's
`block_index mod len(residual_set)` would have block 2 add position 2,
value 5.  The results differ. -/
theorem run_double_blocks_mod_len_counterexample :
    run_double_blocks
        [fun (a t : ℤ) => (a, t), fun (a t : ℤ) => (a, t), fun (a t : ℤ) => (a, t)]
        [0, 0, 5] 0 0 0 ≠
      run_double_blocks_spec
        [fun (a t : ℤ) => (a, t), fun (a t : ℤ) => (a, t), fun (a t : ℤ) => (a, t)]
        [0, 0, 5] 0 0 0 := by
  decide

/-- C4 amended: after each dual-stream block with index `block_index` the
residual added to the image stream (and only the image stream) is the one
at position `block_index mod 2`; this coincides with the spec's
`block_index mod len(residual_set)` exactly when the residual set has
length 2. -/
theorem run_double_blocks_mod_two {V : Type} [AddCommGroup V]
    (blocks : List (V → V → V × V)) (res : List V) (hlen : res.length = 2) :
    ∀ (idx : ℕ) (img txt : V),
      run_double_blocks blocks res idx img txt =
        run_double_blocks_spec blocks res idx img txt := by
  induction blocks with
  | nil => intro idx img txt; rfl
  | cons b bs ih =>
    intro idx img txt
    simp only [run_double_blocks, run_double_blocks_spec, hlen]
    exact ih (idx + 1) _ _

/-- C4 amended witness: a concrete length-2 residual set. -/
theorem run_double_blocks_mod_two_witness :
    ([(1 : ℤ), 2]).length = 2 ∧
    run_double_blocks [fun (a t : ℤ) => (t, a), fun (a t : ℤ) => (a + t, t)]
        [(1 : ℤ), 2] 0 3 4 =
      run_double_blocks_spec [fun (a t : ℤ) => (t, a), fun (a t : ℤ) => (a + t, t)]
        [(1 : ℤ), 2] 0 3 4 :=
  ⟨rfl, run_double_blocks_mod_two
    [fun (a t : ℤ) => (t, a), fun (a t : ℤ) => (a + t, t)] [(1 : ℤ), 2] rfl 0 3 4⟩

/-! ## C7: model_forward validation -/

/-- C7 counterexample: at rank-3 inputs with `guidance_embed` set and a
null guidance tensor, the error is raised, but only after `img_in` and
`time_in` have been invoked, and its message is the source's
"Didn\x27t get guidance strength for guidance distilled model.", not
"guidance strength required".  Hence the claim as stated is false. -/
theorem model_forward_validation_counterexample : ¬ model_forward_validation_claim := by
  intro h
  have h1 := (h 3 3 true true 2 4).2.1
  have h2 : (model_forward_trace 3 3 true true 2 4).2.isSome := by decide
  have h3 := h1 h2
  revert h3
  decide

/-- C7 amended: `model_forward` raises a validation error iff the img or
txt tensor does not have exactly 3 axes, or the model declares guidance
embedding and the guidance tensor is null.  The rank error is raised
before any network sub-component is invoked, with the message of
`rank_error_msg`; the guidance error is raised after `img_in` and
`time_in` have been invoked but before any further sub-component, with
the message of `guidance_error_msg`.  No other validation error is
raised. -/
theorem model_forward_validation_amended (imgNdim txtNdim : ℕ) (ge gn : Bool) (nd ns : ℕ) :
    ((model_forward_trace imgNdim txtNdim ge gn nd ns).2.isSome ↔
      (imgNdim ≠ 3 ∨ txtNdim ≠ 3 ∨ (ge = true ∧ gn = true))) ∧
    (imgNdim ≠ 3 ∨ txtNdim ≠ 3 →
      model_forward_trace imgNdim txtNdim ge gn nd ns = ([], some rank_error_msg)) ∧
    (imgNdim = 3 → txtNdim = 3 → ge = true → gn = true →
      model_forward_trace imgNdim txtNdim ge gn nd ns =
        ([SubComponent.img_in, SubComponent.time_in], some guidance_error_msg)) := by
  unfold model_forward_trace
  by_cases h1 : imgNdim = 3 <;> by_cases h2 : txtNdim = 3 <;>
    cases ge <;> cases gn <;> simp [h1, h2]

/-- C7 amended witness: rank-2 img tensor triggers the rank error with no
sub-component invoked. -/
theorem model_forward_validation_amended_witness :
    ((2 : ℕ) ≠ 3 ∨ (3 : ℕ) ≠ 3) ∧
    model_forward_trace 2 3 false false 1 1 = ([], some rank_error_msg) :=
  ⟨Or.inl (by decide),
    (model_forward_validation_amended 2 3 false false 1 1).2.1 (Or.inl (by decide))⟩

/-! ## Denoising loop lemmas -/

theorem zip_pairs_length {R : Type} (ts : List R) :
    (zip_pairs ts).length = ts.length - 1 := by
  simp [zip_pairs]

theorem zip_pairs_short (R : Type) (ts : List R) (h : ts.length ≤ 1) :
    zip_pairs ts = [] := by
  match ts with
  | [] => rfl
  | [a] => rfl
  | a :: b :: t => simp at h

theorem cfg_pred_gs_one {R V : Type} [CommRing R] [AddCommGroup V] [Module R V]
    (pos neg : R → V → V) (cs i : ℕ) (tc : R) (img : V) :
    cfg_pred pos neg 1 cs i tc img = pos tc img := by
  unfold cfg_pred
  split
  · simp only []
    rw [one_smul]
    abel
  · rfl

theorem denoise_loop_neg_calls {R V : Type} [CommRing R] [AddCommGroup V] [Module R V]
    (pos neg : R → V → V) (gs : R) (cs : ℕ) :
    ∀ (pairs : List (R × R)) (i : ℕ) (img : V), pairs.length + i ≤ cs →
      (denoise_loop pos neg gs cs i img pairs).2.2 = 0 := by
  intro pairs
  induction pairs with
  | nil => intro i img _; rfl
  | cons p rest ih =>
    intro i img h
    obtain ⟨tc, tp⟩ := p
    simp only [List.length_cons] at h
    simp only [denoise_loop]
    rw [if_neg (by omega : ¬ cs ≤ i), Nat.add_zero]
    exact ih (i + 1) _ (by omega)

theorem denoise_loop_gs_one {R V : Type} [CommRing R] [AddCommGroup V] [Module R V]
    (pos neg : R → V → V) (cs : ℕ) :
    ∀ (pairs : List (R × R)) (i : ℕ) (img : V),
      (denoise_loop pos neg 1 cs i img pairs).1 = denoise_no_cfg_loop pos img pairs := by
  intro pairs
  induction pairs with
  | nil => intro i img; rfl
  | cons p rest ih =>
    intro i img
    obtain ⟨tc, tp⟩ := p
    simp only [denoise_loop, denoise_no_cfg_loop, cfg_pred_gs_one]
    exact ih (i + 1) _

/-- C1: each iteration of `denoise` updates the latent by exactly one
explicit Euler step `img = img + (t_prev - t_curr) • pred` with `pred`
the (possibly CFG-blended) prediction at `t_curr`; and with a stub model
whose forward pass returns the constant 1 and the schedule
[1, 0.5, 0] (with the default `true_gs = 1`, `timestep_to_start_cfg = 0`),
the output is the initial latent minus 1. -/
theorem denoise_euler_spec :
    (∀ (R V : Type) [CommRing R] [AddCommGroup V] [Module R V]
       (pos neg : R → V → V) (gs : R) (cs i : ℕ) (img : V) (tc tp : R)
       (rest : List (R × R)),
       (denoise_loop pos neg gs cs i img ((tc, tp) :: rest)).1 =
         (denoise_loop pos neg gs cs (i + 1)
           (img + (tp - tc) • cfg_pred pos neg gs cs i tc img) rest).1) ∧
    (∀ img : ℚ,
      denoise (fun _ _ => (1 : ℚ)) (fun _ _ => (1 : ℚ)) img ([1, 1/2, 0] : List ℚ) 1 0 = img - 1) := by
  constructor
  · intro R V instR instV instM pos neg gs cs i img tc tp rest
    rfl
  · intro img
    show (denoise_loop (fun _ _ => (1 : ℚ)) (fun _ _ => (1 : ℚ)) 1 0 0 img
      (zip_pairs [1, 1/2, 0])).1 = img - 1
    have hz : zip_pairs [(1 : ℚ), 1/2, 0] = [(1, 1/2), (1/2, 0)] := rfl
    rw [hz]
    simp only [denoise_loop, cfg_pred, Nat.zero_le, if_pos, le_refl, smul_eq_mul]
    norm_num
    ring

/-- C3: when `timestep_to_start_cfg` is at least the number of
integration steps (`timesteps.length - 1`), the unconditional forward
pass is never invoked (its call counter stays 0); and with
`true_gs = 1`, `denoise` is numerically identical to the loop that omits
the CFG blend entirely. -/
theorem denoise_cfg_spec (R V : Type) [CommRing R] [AddCommGroup V] [Module R V]
    (pos neg : R → V → V) (gs : R) (cs : ℕ) (img : V) (ts : List R) :
    (ts.length ≤ cs + 1 →
      (denoise_loop pos neg gs cs 0 img (zip_pairs ts)).2.2 = 0) ∧
    denoise pos neg img ts 1 cs = denoise_no_cfg pos img ts := by
  constructor
  · intro h
    apply denoise_loop_neg_calls
    have hl := zip_pairs_length ts
    omega
  · exact denoise_loop_gs_one pos neg cs (zip_pairs ts) 0 img

/-- C3 witness: a concrete 1-step schedule with `timestep_to_start_cfg = 5`
and a stub model. -/
theorem denoise_cfg_spec_witness :
    ((denoise_loop (fun (t x : ℚ) => t + x) (fun _ _ => 0) 2 5 0 3
        (zip_pairs [1, 0])).2.2 = 0) ∧
    denoise (fun (t x : ℚ) => t + x) (fun _ _ => 0) 3 [1, 0] 1 5 =
      denoise_no_cfg (fun (t x : ℚ) => t + x) 3 [1, 0] :=
  ⟨(denoise_cfg_spec ℚ ℚ (fun t x => t + x) (fun _ _ => 0) 2 5 3 [1, 0]).1 (by decide),
    (denoise_cfg_spec ℚ ℚ (fun t x => t + x) (fun _ _ => 0) 2 5 3 [1, 0]).2⟩

/-- C10: when the timesteps list has length 0 or 1 there are no adjacent
pairs, so both `denoise` and `denoise_controlnet` return the initial
latent unchanged and invoke neither the model nor the controlnet (all
call counters are 0). -/
theorem denoise_short_schedule (R V : Type) [CommRing R] [AddCommGroup V] [Module R V]
    (pos neg : R → V → V) (cnet_pos cnet_neg : R → V → List V)
    (mpos mneg : R → V → List V → V) (gs cgs : R) (cs : ℕ) (img : V) (ts : List R)
    (h : ts.length ≤ 1) :
    denoise_loop pos neg gs cs 0 img (zip_pairs ts) = (img, 0, 0) ∧
    denoise_controlnet_loop cnet_pos cnet_neg mpos mneg gs cgs cs 0 img (zip_pairs ts)
      = (img, 0, 0) ∧
    denoise pos neg img ts gs cs = img ∧
    denoise_controlnet cnet_pos cnet_neg mpos mneg img ts gs cgs cs = img := by
  have hz := zip_pairs_short R ts h
  refine ⟨?_, ?_, ?_, ?_⟩
  · rw [hz]; simp [denoise_loop]
  · rw [hz]; simp [denoise_controlnet_loop]
  · unfold denoise
    rw [hz]; simp [denoise_loop]
  · unfold denoise_controlnet
    rw [hz]; simp [denoise_controlnet_loop]

/-- C10 witness: the singleton schedule [1]. -/
theorem denoise_short_schedule_witness :
    ([(1 : ℚ)]).length ≤ 1 ∧
    (denoise_loop (fun (t x : ℚ) => t + x) (fun _ _ => 0) 2 0 0 7
        (zip_pairs ([1] : List ℚ)) = (7, 0, 0) ∧
     denoise_controlnet_loop (fun (_ x : ℚ) => ([x] : List ℚ)) (fun _ x => [x])
        (fun _ x _ => x) (fun _ x _ => x) 2 (1/2) 0 0 7 (zip_pairs ([1] : List ℚ))
        = (7, 0, 0) ∧
     denoise (fun (t x : ℚ) => t + x) (fun _ _ => 0) 7 ([1] : List ℚ) 2 0 = 7 ∧
     denoise_controlnet (fun (_ x : ℚ) => ([x] : List ℚ)) (fun _ x => [x])
        (fun _ x _ => x) (fun _ x _ => x) 7 ([1] : List ℚ) 2 (1/2) 0 = 7) :=
  ⟨by decide,
    denoise_short_schedule ℚ ℚ (fun t x => t + x) (fun _ _ => 0)
      (fun _ x => [x]) (fun _ x => [x]) (fun _ x _ => x) (fun _ x _ => x)
      2 (1/2) 0 7 [1] (by decide)⟩
